import Mathlib

/-!
Shallow embedding of the text-normalization pipeline of the
investment-analysis-platform repository.

Two independent implementations exist in the source:
* the workflow-side normalizer, function named with a leading underscore in
  src/src/upsonic_investment_generator/workflow.py (here
  normalize_text_block), and
* the dashboard-side normalizer in src/streamlit_app.py (here
  format_text_block with its helpers clean_line, is_list_item,
  normalize_bullet_line, separate_inline_bullets).

Strings are modelled as List Char and every Python regex substitution of the
source is translated to an explicit scanning function with the exact
left-to-right leftmost-match / continue-after-match semantics of re.sub.
Scanning functions that jump over runs take an explicit fuel argument
(initialised to the input length) so that they are structurally recursive
and evaluate inside the kernel; when the fuel runs out the remaining input
is returned unchanged, and the initial fuel is always sufficient because
every step consumes at least one character.

The source files contain mojibake literals (an encode/decode accident of the
repository itself): the bullet tuple of streamlit_app.py holds eight
three-character mojibake sequences and the currency character classes hold
the mojibake renderings of the euro and pound signs.  These literals are
reproduced here codepoint-for-codepoint.

Python character semantics are modelled for the ASCII range: the whitespace
set is the six ASCII whitespace characters, and the regex classes \w and \d
are modelled as ASCII word and digit characters (the repository feeds the
normalizers ASCII markdown; non-ASCII letters never occur in the inputs the
claims are about, except the fixed mojibake literals which are reproduced
exactly).  ftfy.fix_text is an external library (the spec treats encoding
repair as a pass-through on well-formed text) and is modelled as the
identity, which is its behaviour on ASCII input with no mojibake.
-/

/-- Python whitespace (str.isspace / regex class backslash-s), ASCII range. -/
def pyIsSpace (c : Char) : Bool :=
  c == ' ' || c == '\t' || c == '\n' || c == '\r' || c == '\x0b' || c == '\x0c'

/-- ASCII uppercase letter (the regex class [A-Z]). -/
def isUpperAscii (c : Char) : Bool :=
  65 ≤ c.toNat && c.toNat ≤ 90

/-- ASCII lowercase letter (the regex class [a-z]). -/
def isLowerAscii (c : Char) : Bool :=
  97 ≤ c.toNat && c.toNat ≤ 122

/-- ASCII letter. -/
def isAsciiLetter (c : Char) : Bool :=
  isUpperAscii c || isLowerAscii c

/-- ASCII digit (regex class backslash-d). -/
def isAsciiDigit (c : Char) : Bool :=
  48 ≤ c.toNat && c.toNat ≤ 57

/-- ASCII alphanumeric character. -/
def isAsciiAlnum (c : Char) : Bool :=
  isAsciiLetter c || isAsciiDigit c

/-- Regex word character (backslash-w), ASCII range. -/
def isWordChar (c : Char) : Bool :=
  isAsciiAlnum c || c == '_'

/-- Python str.lstrip(). -/
def pyLstrip (l : List Char) : List Char :=
  l.dropWhile pyIsSpace

/-- Python str.rstrip(). -/
def pyRstrip (l : List Char) : List Char :=
  (l.reverse.dropWhile pyIsSpace).reverse

/-- Python str.strip(). -/
def pyStrip (l : List Char) : List Char :=
  pyRstrip (pyLstrip l)

/-- sep.join(parts). -/
def joinSep (sep : List Char) : List (List Char) → List Char
  | [] => []
  | [x] => x
  | x :: y :: ys => x ++ sep ++ joinSep sep (y :: ys)

/-- Worker for splitlines: closes a line at every line boundary; a trailing
terminator produces no final empty line, as in Python. -/
def splitlinesGo (acc : List Char) : List Char → List (List Char)
  | [] => [acc.reverse]
  | '\r' :: '\n' :: rest =>
    acc.reverse :: (if rest.isEmpty then [] else splitlinesGo [] rest)
  | '\n' :: rest =>
    acc.reverse :: (if rest.isEmpty then [] else splitlinesGo [] rest)
  | '\r' :: rest =>
    acc.reverse :: (if rest.isEmpty then [] else splitlinesGo [] rest)
  | c :: rest => splitlinesGo (c :: acc) rest

/-- Python str.splitlines() restricted to the terminators CR, LF, CRLF. -/
def pySplitlines (l : List Char) : List (List Char) :=
  if l.isEmpty then [] else splitlinesGo [] l

/-- First element satisfies the predicate. -/
def headSat (p : Char → Bool) : List Char → Bool
  | [] => false
  | c :: _ => p c

theorem headSat_cons (p : Char → Bool) (c : Char) (l : List Char) :
    headSat p (c :: l) = p c := rfl

/-- Last character of the run c :: w (helper for original-string lookbehind
tracking after a deletion). -/
def lastOfRun (c : Char) (w : List Char) : Char :=
  w.getLast?.getD c

/-! ### Workflow-side normalizer (src/src/upsonic_investment_generator/workflow.py) -/

/-- The tuple of simple bullet markers recognised by the workflow-side
normalizer: dash, star, plus, and the numbered markers 1. to 5. only. -/
def workflowBulletMarks : List (List Char) :=
  [['-', ' '], ['*', ' '], ['+', ' '],
   ['1', '.', ' '], ['2', '.', ' '], ['3', '.', ' '],
   ['4', '.', ' '], ['5', '.', ' ']]

/-- line.lstrip().startswith(bullet_prefixes). -/
def startsWithBulletMark (l : List Char) : Bool :=
  workflowBulletMarks.any (fun p => p.isPrefixOf l)

/-- Flush the pending paragraph: append the space-joined, stripped paragraph
to the accumulated entries when it is nonempty. -/
def flushParagraph (normalized paragraph : List (List Char)) : List (List Char) :=
  if paragraph.isEmpty then normalized
  else normalized ++ [pyStrip (joinSep [' '] paragraph)]

/-- The per-line loop of the workflow-side normalizer: blank lines flush the
paragraph and record at most one empty entry; bullet lines flush and are kept
on their own; other lines accumulate into the paragraph. -/
def ntbLoop (normalized paragraph : List (List Char)) : List (List Char) → List (List Char)
  | [] => flushParagraph normalized paragraph
  | raw :: rest =>
    let line := pyRstrip raw
    if (pyStrip line).isEmpty then
      let n1 := flushParagraph normalized paragraph
      let n2 := match n1.getLast? with
        | some (_ :: _) => n1 ++ [[]]
        | _ => n1
      ntbLoop n2 [] rest
    else if startsWithBulletMark (pyLstrip line) then
      ntbLoop (flushParagraph normalized paragraph ++ [pyStrip line]) [] rest
    else ntbLoop normalized (paragraph ++ [pyStrip line]) rest

/-- The clean-up loop: drop leading empty entries and collapse runs of empty
entries to a single one. -/
def cleanBlanks (blankPending : Bool) (cleaned : List (List Char)) : List (List Char) → List (List Char)
  | [] => cleaned
  | e :: rest =>
    if e.isEmpty then
      cleanBlanks true (if !blankPending && !cleaned.isEmpty then cleaned ++ [[]] else cleaned) rest
    else cleanBlanks false (cleaned ++ [e]) rest

/-- Character class of the duplicate-token regex of the workflow normalizer:
backslash-w plus period, comma, dollar, percent and the four mojibake
characters that the source file holds in place of the euro and pound signs. -/
def dupClass (c : Char) : Bool :=
  isWordChar c || c == '.' || c == ',' || c == '$' || c == '%' ||
  c == 'â' || c == '‚' || c == '¬' || c == 'Â' || c == '£'

/-- re.sub of ([class]+)\s+\1([class]+) with replacement \1\2 (the
duplicate-token collapse, workflow.py line 83).  At a position holding a
class character, group 1 is forced to be the class run up to the next
non-class character (a shorter group would be followed by a class character
where the pattern requires whitespace); the backreference then requires the
same run after the whitespace, and group 2 requires at least one further
class character.  On a match the whitespace and the duplicate are dropped
and scanning resumes after group 2. -/
def dupSubF : Nat → List Char → List Char
  | 0, l => l
  | _ + 1, [] => []
  | f + 1, c :: rest =>
    if dupClass c then
      let g1 := c :: rest.takeWhile dupClass
      let afterRun := rest.dropWhile dupClass
      let w := afterRun.takeWhile pyIsSpace
      let afterW := afterRun.dropWhile pyIsSpace
      if !w.isEmpty && g1.isPrefixOf afterW then
        let t2 := afterW.drop g1.length
        let g2 := t2.takeWhile dupClass
        if !g2.isEmpty then g1 ++ g2 ++ dupSubF f (t2.drop g2.length)
        else c :: dupSubF f rest
      else c :: dupSubF f rest
    else c :: dupSubF f rest

/-- Wrapper with sufficient fuel. -/
def dupSub (l : List Char) : List Char := dupSubF l.length l

/-- re.sub of ([A-Za-z])(\d) with replacement inserting a space
(workflow.py line 85). -/
def sub85 : List Char → List Char
  | c1 :: c2 :: rest =>
    if isAsciiLetter c1 && isAsciiDigit c2 then c1 :: ' ' :: c2 :: sub85 rest
    else c1 :: sub85 (c2 :: rest)
  | l => l

/-- re.sub of (\d)([A-Za-z]) with replacement inserting a space
(workflow.py line 86). -/
def sub86 : List Char → List Char
  | c1 :: c2 :: rest =>
    if isAsciiDigit c1 && isAsciiLetter c2 then c1 :: ' ' :: c2 :: sub86 rest
    else c1 :: sub86 (c2 :: rest)
  | l => l

/-- Lookahead class of workflow.py line 88: [A-Za-z$%]. -/
def class88 (c : Char) : Bool :=
  isAsciiLetter c || c == '$' || c == '%'

/-- The previous original character is an ASCII digit. -/
def prevIsDigit : Option Char → Bool
  | some d => isAsciiDigit d
  | none => false

/-- re.sub of (?<=\d)\s+(?=[A-Za-z$%]) with empty replacement (workflow.py
line 88): a whitespace run preceded by a digit and followed by a letter,
dollar or percent is deleted.  prev is the original character before the
current position. -/
def sub88F : Nat → Option Char → List Char → List Char
  | 0, _, l => l
  | _ + 1, _, [] => []
  | f + 1, prev, c :: rest =>
    if prevIsDigit prev && pyIsSpace c then
      let w := rest.takeWhile pyIsSpace
      let r := rest.dropWhile pyIsSpace
      if headSat class88 r then sub88F f (some (lastOfRun c w)) r
      else c :: sub88F f (some c) rest
    else c :: sub88F f (some c) rest

/-- Wrapper with sufficient fuel. -/
def sub88 (l : List Char) : List Char := sub88F l.length none l

/-- Lookbehind class of workflow.py line 89: the dollar sign plus the
mojibake renderings of the euro and pound signs held by the source. -/
def class89 (c : Char) : Bool :=
  c == '$' || c == 'â' || c == '‚' || c == '¬' ||
  c == 'Â' || c == '£'

/-- re.sub of (?<=[$...])\s+(?=\d) with empty replacement (workflow.py
line 89): a whitespace run between a currency character and a digit is
deleted. -/
def sub89F : Nat → Option Char → List Char → List Char
  | 0, _, l => l
  | _ + 1, _, [] => []
  | f + 1, prev, c :: rest =>
    if (match prev with | some p => class89 p | none => false) && pyIsSpace c then
      let w := rest.takeWhile pyIsSpace
      let r := rest.dropWhile pyIsSpace
      if headSat isAsciiDigit r then sub89F f (some (lastOfRun c w)) r
      else c :: sub89F f (some c) rest
    else c :: sub89F f (some c) rest

/-- Wrapper with sufficient fuel. -/
def sub89 (l : List Char) : List Char := sub89F l.length none l

/-- Chain parser for the letter-despacing regexes (workflow.py lines 91-95).
Starting just after a matched single letter, collects the successive
(whitespace run, letter) continuations: each continuation needs a nonempty
whitespace run followed by a letter of the targeted case.  Returns the
collected pairs and the unconsumed remainder. -/
def chainF (p : Char → Bool) : Nat → List Char → List (List Char × Char) × List Char
  | 0, l => ([], l)
  | f + 1, l =>
    let w := l.takeWhile pyIsSpace
    let r := l.dropWhile pyIsSpace
    match r with
    | c :: rest =>
      if !w.isEmpty && p c then
        let res := chainF p f rest
        ((w, c) :: res.1, res.2)
      else ([], l)
    | [] => ([], l)

/-- The replacement of the despacing regexes: match.group(0).replace(" ", "")
removes the space characters (only U+0020) of the matched text. -/
def squashText (c : Char) (pairs : List (List Char × Char)) : List Char :=
  c :: (pairs.map (fun wl => wl.1.filter (fun x => !(x == ' ')) ++ [wl.2])).flatten

/-- Greedy repetition choice of \b(?:[x]\s+){2,}[x]\b given the maximal
chain: the final letter is the last chain letter when the character après it
is a non-word boundary (or the end), else the next-to-last letter, which is
always followed by whitespace; at least two repetitions plus the final
letter are required.  Returns the emitted squashed text and the remainder on
which scanning resumes, or none when the pattern cannot match here. -/
def squashDecide (c : Char) (pairs : List (List Char × Char)) (rem : List Char) :
    Option (List Char × List Char) :=
  let boundaryAfterLast : Bool :=
    match rem with
    | [] => true
    | x :: _ => !isWordChar x
  if boundaryAfterLast then
    if pairs.length ≥ 2 then some (squashText c pairs, rem) else none
  else
    if pairs.length ≥ 3 then
      match pairs.getLast? with
      | some last => some (squashText c pairs.dropLast, last.1 ++ [last.2] ++ rem)
      | none => none
    else none

/-- re.sub of \b(?:[x]\s+){2,}[x]\b with the space-removing replacement,
where [x] is [a-z] (line 94) or [A-Z] (line 95).  prev is the original
character before the current position, used for the leading word boundary. -/
def squashF (p : Char → Bool) : Nat → Option Char → List Char → List Char
  | 0, _, l => l
  | _ + 1, _, [] => []
  | f + 1, prev, c :: rest =>
    let boundaryOk : Bool :=
      match prev with
      | none => true
      | some q => !isWordChar q
    if p c && boundaryOk then
      let parsed := chainF p (rest.length + 1) rest
      match squashDecide c parsed.1 parsed.2 with
      | some er => er.1 ++ squashF p f (some c) er.2
      | none => c :: squashF p f (some c) rest
    else c :: squashF p f (some c) rest

/-- Wrapper with sufficient fuel: the lowercase despacing pass. -/
def squashLower (l : List Char) : List Char :=
  squashF isLowerAscii l.length none l

/-- Wrapper with sufficient fuel: the uppercase despacing pass. -/
def squashUpper (l : List Char) : List Char :=
  squashF isUpperAscii l.length none l

/-- Sentence punctuation class [,.;:%] shared by both implementations. -/
def isPunct (c : Char) : Bool :=
  c == ',' || c == '.' || c == ';' || c == ':' || c == '%'

/-- re.sub of \s+([,.;:%]) with replacement \1 (workflow.py line 96 and
streamlit_app.py line 74): a whitespace run immediately before sentence
punctuation is deleted. -/
def wsBeforePunctF : Nat → List Char → List Char
  | 0, l => l
  | _ + 1, [] => []
  | f + 1, c :: rest =>
    if pyIsSpace c then
      let r := rest.dropWhile pyIsSpace
      match r with
      | p :: rest2 => if isPunct p then p :: wsBeforePunctF f rest2
                      else c :: wsBeforePunctF f rest
      | [] => c :: wsBeforePunctF f rest
    else c :: wsBeforePunctF f rest

/-- Wrapper with sufficient fuel. -/
def wsBeforePunct (l : List Char) : List Char := wsBeforePunctF l.length l

/-- re.sub of ([,.;:%])(?!\s) with replacement appending a space
(workflow.py line 97); the lookahead also succeeds at the end of the
string, so trailing punctuation receives a trailing space. -/
def sub97 : List Char → List Char
  | [] => []
  | c :: rest =>
    if isPunct c then
      match rest with
      | [] => [c, ' ']
      | d :: _ => if pyIsSpace d then c :: sub97 rest else c :: ' ' :: sub97 rest
    else c :: sub97 rest

/-- re.sub of \s{2,} with replacement a single space (workflow.py line 98
and streamlit_app.py lines 77 and 106): whitespace runs of length at least
two collapse to one space; single whitespace characters, newlines included,
are kept as they are. -/
def collapseWsF : Nat → List Char → List Char
  | 0, l => l
  | _ + 1, [] => []
  | f + 1, c :: rest =>
    if pyIsSpace c then
      let w := rest.takeWhile pyIsSpace
      let r := rest.dropWhile pyIsSpace
      if w.isEmpty then c :: collapseWsF f rest
      else ' ' :: collapseWsF f r
    else c :: collapseWsF f rest

/-- Wrapper with sufficient fuel. -/
def collapseWs (l : List Char) : List Char := collapseWsF l.length l

/-- The workflow-side normalizer _normalize_text_block of
src/src/upsonic_investment_generator/workflow.py, lines 36-100: the
line-grouping loop, the blank-entry clean-up, the newline join, and the
ordered regex pipeline of lines 83-98 followed by a final strip. -/
def normalize_text_blockL (text : List Char) : List Char :=
  if text.isEmpty then []
  else
    let normalized := ntbLoop [] [] (pySplitlines text)
    let cleaned := cleanBlanks false [] normalized
    let joined := pyStrip (joinSep ['\n'] cleaned)
    let j1 := dupSub joined
    let j2 := sub85 j1
    let j3 := sub86 j2
    let j4 := sub88 j3
    let j5 := sub89 j4
    let j6 := squashLower j5
    let j7 := squashUpper j6
    let j8 := wsBeforePunct j7
    let j9 := sub97 j8
    let j10 := collapseWs j9
    pyStrip j10

/-- String-level wrapper of the workflow-side normalizer. -/
def normalize_text_block (s : String) : String :=
  String.mk (normalize_text_blockL s.data)

/-! ### Dashboard-side normalizer (src/streamlit_app.py) -/

/-- The _BULLET_CHARS tuple of streamlit_app.py, reproduced exactly: the
source holds eight three-character mojibake sequences (each a bullet glyph
that went through a double encode/decode accident), not single glyphs. -/
def bulletStrings : List (List Char) :=
  [['‚', 'Ä', '¢'],
   ['‚', 'ó', '¶'],
   ['‚', 'ñ', '™'],
   ['‚', 'Ä', '£'],
   ['‚', 'Å', 'É'],
   ['‚', 'à', 'ô'],
   ['‚', 'ó', 'è'],
   ['‚', 'ó', 'ã']]

/-- Membership in the _BULLET_REGEX character class, which is built by
concatenating the bullet strings, so it contains their 24 individual
characters. -/
def bulletClassChar (c : Char) : Bool :=
  bulletStrings.any (fun b => b.contains c)

/-- _normalize_bullet_line: when the left-stripped line starts with one of
the bullet strings and the remainder is empty or starts with whitespace,
replace the bullet by the canonical dash marker, preserving the leading
indentation and left-stripping the remainder. -/
def normalize_bullet_lineL (line : List Char) : List Char :=
  let stripped := pyLstrip line
  let found := bulletStrings.find? (fun b =>
    b.isPrefixOf stripped &&
    (match stripped.drop b.length with
     | [] => true
     | c :: _ => pyIsSpace c))
  match found with
  | some b =>
    let indent := line.length - stripped.length
    List.replicate indent ' ' ++ '-' :: ' ' :: pyLstrip (stripped.drop b.length)
  | none => line

/-- The previous original character allows an inline-bullet match: the
pattern carries (?<!\n)(?<!^) with MULTILINE, so the match may not start at
position zero nor directly after a newline. -/
def sibPrevOk : Option Char → Bool
  | none => false
  | some p => !(p == '\n')

/-- _INLINE_BULLET_PATTERN.sub: matches \s*([bullet])\s+ not at a line
start, replacing the match by a newline, the bullet character and one
space; scanning resumes after the consumed trailing whitespace run. -/
def sibF : Nat → Option Char → List Char → List Char
  | 0, _, l => l
  | _ + 1, _, [] => []
  | f + 1, prev, c :: rest =>
    let l := c :: rest
    let r0 := l.dropWhile pyIsSpace
    match r0 with
    | b :: r1 =>
      if sibPrevOk prev && bulletClassChar b && headSat pyIsSpace r1 then
        let r2 := r1.dropWhile pyIsSpace
        let w1 := r1.takeWhile pyIsSpace
        '\n' :: b :: ' ' :: sibF f (some (lastOfRun b w1)) r2
      else c :: sibF f (some c) rest
    | [] => c :: sibF f (some c) rest

/-- Wrapper with sufficient fuel. -/
def separate_inline_bulletsL (l : List Char) : List Char :=
  sibF l.length none l

/-- The standard ASCII list markers of the dashboard. -/
def standardMarks : List (List Char) :=
  [['-', ' '], ['*', ' '], ['+', ' ']]

/-- re.match of ^\d+\.\s : one or more digits, a period, one whitespace. -/
def numDotSpace (l : List Char) : Bool :=
  let ds := l.takeWhile isAsciiDigit
  let r := l.dropWhile isAsciiDigit
  !ds.isEmpty &&
  (match r with
   | '.' :: x :: _ => pyIsSpace x
   | _ => false)

/-- _is_list_item.  The middle test of the source compares the single first
character with the elements of _BULLET_CHARS; since every element is a
three-character mojibake string, that membership test never succeeds, and it
is reproduced here as written. -/
def is_list_itemL (line : List Char) : Bool :=
  let stripped := pyLstrip line
  standardMarks.any (fun p => p.isPrefixOf stripped) ||
  (match stripped with
   | c :: _ => bulletStrings.any (fun b => b = [c])
   | [] => false) ||
  numDotSpace stripped ||
  ['#'].isPrefixOf stripped

/-- Lookahead class of streamlit_app.py line 70: ASCII letters, the dollar
sign, the percent sign, and the mojibake characters the source holds in
place of the euro and pound signs. -/
def class70 (c : Char) : Bool :=
  isAsciiLetter c || c == '$' || c == '%' ||
  c == '‚' || c == 'Ç' || c == '¨' || c == '¬' || c == '£'

/-- re.sub of (?<=\d)\s+(?=[A-Za-z$...%]) with empty replacement
(streamlit_app.py line 70). -/
def sub70F : Nat → Option Char → List Char → List Char
  | 0, _, l => l
  | _ + 1, _, [] => []
  | f + 1, prev, c :: rest =>
    if prevIsDigit prev && pyIsSpace c then
      let w := rest.takeWhile pyIsSpace
      let r := rest.dropWhile pyIsSpace
      if headSat class70 r then sub70F f (some (lastOfRun c w)) r
      else c :: sub70F f (some c) rest
    else c :: sub70F f (some c) rest

/-- Wrapper with sufficient fuel. -/
def sub70 (l : List Char) : List Char := sub70F l.length none l

/-- Currency class of streamlit_app.py line 71. -/
def class71 (c : Char) : Bool :=
  c == '$' || c == '‚' || c == 'Ç' || c == '¨' ||
  c == '¬' || c == '£'

/-- re.sub of ([$...])\s+(?=\d) with replacement \1 (streamlit_app.py
line 71): the whitespace between a currency character and a digit is
deleted and scanning resumes at the digit. -/
def sub71F : Nat → List Char → List Char
  | 0, l => l
  | _ + 1, [] => []
  | f + 1, c :: rest =>
    if class71 c then
      let w := rest.takeWhile pyIsSpace
      let r := rest.dropWhile pyIsSpace
      if !w.isEmpty && headSat isAsciiDigit r then c :: sub71F f r
      else c :: sub71F f rest
    else c :: sub71F f rest

/-- Wrapper with sufficient fuel. -/
def sub71 (l : List Char) : List Char := sub71F l.length l

/-- re.sub of (\d)\s+(?=\d) with replacement \1 (streamlit_app.py line 72):
any whitespace run between two digits is deleted, whatever the length of
the digit runs on either side. -/
def sub72F : Nat → List Char → List Char
  | 0, l => l
  | _ + 1, [] => []
  | f + 1, c :: rest =>
    if isAsciiDigit c then
      let w := rest.takeWhile pyIsSpace
      let r := rest.dropWhile pyIsSpace
      if !w.isEmpty && headSat isAsciiDigit r then c :: sub72F f r
      else c :: sub72F f rest
    else c :: sub72F f rest

/-- Wrapper with sufficient fuel. -/
def sub72 (l : List Char) : List Char := sub72F l.length l

/-- re.sub of (\d)\.\s+(\d) with replacement \1.\2 (streamlit_app.py
line 73): digit, period, whitespace, digit contracts by deleting the
whitespace; the match consumes both digits. -/
def sub73F : Nat → List Char → List Char
  | 0, l => l
  | _ + 1, [] => []
  | f + 1, c :: rest =>
    if isAsciiDigit c then
      match rest with
      | '.' :: rest2 =>
        let w := rest2.takeWhile pyIsSpace
        let r := rest2.dropWhile pyIsSpace
        match r with
        | d :: rest3 =>
          if !w.isEmpty && isAsciiDigit d then c :: '.' :: d :: sub73F f rest3
          else c :: sub73F f rest
        | [] => c :: sub73F f rest
      | _ => c :: sub73F f rest
    else c :: sub73F f rest

/-- Wrapper with sufficient fuel. -/
def sub73 (l : List Char) : List Char := sub73F l.length l

/-- re.sub of (?<=[,.;:%])\s+(\*\*|__) with replacement \1
(streamlit_app.py line 75): whitespace between sentence punctuation and a
markdown emphasis marker is deleted. -/
def sub75F : Nat → Option Char → List Char → List Char
  | 0, _, l => l
  | _ + 1, _, [] => []
  | f + 1, prev, c :: rest =>
    if (match prev with | some p => isPunct p | none => false) && pyIsSpace c then
      let r := rest.dropWhile pyIsSpace
      match r with
      | '*' :: '*' :: rest2 => '*' :: '*' :: sub75F f (some '*') rest2
      | '_' :: '_' :: rest2 => '_' :: '_' :: sub75F f (some '_') rest2
      | _ => c :: sub75F f (some c) rest
    else c :: sub75F f (some c) rest

/-- Wrapper with sufficient fuel. -/
def sub75 (l : List Char) : List Char := sub75F l.length none l

/-- re.sub of ([,.;:%])(?!\s|$|[*_]) with replacement appending a space
(streamlit_app.py line 76); unlike the workflow variant the lookahead
excludes the end of the string and emphasis markers. -/
def sub76 : List Char → List Char
  | [] => []
  | c :: rest =>
    if isPunct c then
      match rest with
      | [] => [c]
      | d :: _ =>
        if pyIsSpace d || d == '*' || d == '_' then c :: sub76 rest
        else c :: ' ' :: sub76 rest
    else c :: sub76 rest

/-- _clean_line of streamlit_app.py, lines 67-78: bullet normalisation,
strip, and the ordered regex pipeline of lines 70-77 followed by a final
strip. -/
def clean_lineL (line : List Char) : List Char :=
  let l0 := normalize_bullet_lineL line
  let l1 := pyStrip l0
  let l2 := sub70 l1
  let l3 := sub71 l2
  let l4 := sub72 l3
  let l5 := sub73 l4
  let l6 := wsBeforePunct l5
  let l7 := sub75 l6
  let l8 := sub76 l7
  let l9 := collapseWs l8
  pyStrip l9

/-- String-level wrapper of _clean_line. -/
def clean_line (s : String) : String :=
  String.mk (clean_lineL s.data)

/-- re.split of \n{2,}: a run of two or more newlines separates blocks;
single newlines stay inside a block; separators at the ends produce empty
blocks, as re.split does. -/
def splitBlocksF : Nat → List Char → List Char → List (List Char)
  | 0, acc, l => [acc.reverse ++ l]
  | _ + 1, acc, [] => [acc.reverse]
  | f + 1, acc, '\n' :: rest =>
    let w := rest.takeWhile (fun c => c == '\n')
    let r := rest.dropWhile (fun c => c == '\n')
    if w.isEmpty then splitBlocksF f ('\n' :: acc) rest
    else acc.reverse :: splitBlocksF f [] r
  | f + 1, acc, c :: rest => splitBlocksF f (c :: acc) rest

/-- Wrapper with sufficient fuel. -/
def splitBlocks (l : List Char) : List (List Char) :=
  splitBlocksF l.length [] l

/-- Python str.split("\n"): plain split keeping empty pieces. -/
def splitNl (acc : List Char) : List Char → List (List Char)
  | [] => [acc.reverse]
  | '\n' :: rest => acc.reverse :: splitNl [] rest
  | c :: rest => splitNl (c :: acc) rest

/-- The "\r\n" to "\n" then "\r" to "\n" replacements. -/
def replaceCR : List Char → List Char
  | [] => []
  | '\r' :: '\n' :: rest => '\n' :: replaceCR rest
  | '\r' :: rest => '\n' :: replaceCR rest
  | c :: rest => c :: replaceCR rest

/-- ftfy.fix_text with NFKC normalisation: an external collaborator of the
repository (not part of its source); on ASCII text with no mojibake it is
the identity, which is how it is modelled here. -/
def fixTextL (l : List Char) : List Char := l

/-- re.sub of (?<!\\)\$ with replacement \$ (streamlit_app.py line 107):
every dollar sign not already preceded by a backslash is escaped. -/
def escapeDollars (prev : Option Char) : List Char → List Char
  | [] => []
  | c :: rest =>
    if c == '$' && !(prev == some '\\') then
      '\\' :: '$' :: escapeDollars (some '$') rest
    else c :: escapeDollars (some c) rest

/-- The per-block rendering of _format_text_block: keep the nonblank lines,
normalise bullet lines, skip the block when nothing remains; render as a
newline-joined list of cleaned lines when any line is a list item, else as
one space-joined cleaned paragraph. -/
def renderBlock (rawBlock : List Char) : Option (List Char) :=
  let rawLines := (splitNl [] rawBlock).filter (fun ln => !(pyStrip ln).isEmpty)
  let lines := rawLines.map normalize_bullet_lineL
  if lines.isEmpty then none
  else if lines.any is_list_itemL then
    some (joinSep ['\n']
      ((lines.filter (fun ln => !(pyStrip ln).isEmpty)).map clean_lineL))
  else
    some (pyStrip (joinSep [' '] (lines.map clean_lineL)))

/-- _format_text_block of streamlit_app.py, lines 81-109: encoding repair,
newline canonicalisation, inline-bullet separation, block splitting on
blank lines, per-block rendering, the double-newline join, the global
whitespace collapse, the dollar escaping and the final strip. -/
def format_text_blockL (text : List Char) : List Char :=
  if text.isEmpty then []
  else
    let t1 := fixTextL text
    let t2 := replaceCR t1
    let t3 := separate_inline_bulletsL t2
    let blocks := (splitBlocks t3).filterMap renderBlock
    let formatted := joinSep ['\n', '\n'] blocks
    let f2 := collapseWs formatted
    let f3 := escapeDollars none f2
    pyStrip f3

/-- String-level wrapper of _format_text_block. -/
def format_text_block (s : String) : String :=
  String.mk (format_text_blockL s.data)

/-! ### Observation predicates used by the claim theorems -/

/-- The subsequence of ASCII alphanumeric characters of a string, in order. -/
def alnumSeq (l : List Char) : List Char :=
  l.filter isAsciiAlnum

/-- The string starts with a nonempty whitespace run whose first non-space
successor is in the class [A-Za-z$%]. -/
def wsThenClass88 (l : List Char) : Bool :=
  headSat pyIsSpace l && headSat class88 (l.dropWhile pyIsSpace)

/-- Somewhere in the string a digit is followed by whitespace and then a
character of [A-Za-z$%] (the pattern deleted by workflow.py line 88). -/
def hasDigitWsClass : List Char → Bool
  | [] => false
  | c :: rest => (isAsciiDigit c && wsThenClass88 rest) || hasDigitWsClass rest

/-- Somewhere in the string a letter is immediately followed by a digit (the
pattern split by workflow.py line 85). -/
def hasLetterDigit : List Char → Bool
  | c :: d :: rest => (isAsciiLetter c && isAsciiDigit d) || hasLetterDigit (d :: rest)
  | _ => false

/-! ### Character-class micro-lemmas -/

theorem pyIsSpace_cases {c : Char} (h : pyIsSpace c = true) :
    c = ' ' ∨ c = '\t' ∨ c = '\n' ∨ c = '\r' ∨ c = '\x0b' ∨ c = '\x0c' := by
  simp only [pyIsSpace, Bool.or_eq_true, beq_iff_eq] at h
  tauto

theorem ws_not_digit {c : Char} (h : pyIsSpace c = true) : isAsciiDigit c = false := by
  rcases pyIsSpace_cases h with rfl | rfl | rfl | rfl | rfl | rfl <;> decide

theorem ws_not_alnum {c : Char} (h : pyIsSpace c = true) : isAsciiAlnum c = false := by
  rcases pyIsSpace_cases h with rfl | rfl | rfl | rfl | rfl | rfl <;> decide

theorem class88_not_ws {c : Char} (h : class88 c = true) : pyIsSpace c = false := by
  by_contra hw
  rcases pyIsSpace_cases (by simpa using Bool.of_not_eq_false hw) with rfl | rfl | rfl | rfl | rfl | rfl <;>
    simp [class88, isAsciiLetter, isUpperAscii, isLowerAscii] at h

theorem digit_not_letter {c : Char} (h : isAsciiDigit c = true) : isAsciiLetter c = false := by
  simp only [isAsciiDigit, Bool.and_eq_true, decide_eq_true_eq] at h
  simp only [isAsciiLetter, isUpperAscii, isLowerAscii, Bool.or_eq_false_iff,
    Bool.and_eq_false_iff, decide_eq_false_iff_not]
  omega

theorem punct_not_alnum {c : Char} (h : isPunct c = true) : isAsciiAlnum c = false := by
  have : c = ',' ∨ c = '.' ∨ c = ';' ∨ c = ':' ∨ c = '%' := by
    simp only [isPunct, Bool.or_eq_true, beq_iff_eq] at h
    tauto
  rcases this with rfl | rfl | rfl | rfl | rfl <;> decide

/-! ### Filter helper lemmas -/

theorem filter_allWs {p : Char → Bool} {w : List Char}
    (hw : ∀ c ∈ w, pyIsSpace c = true)
    (hp : ∀ c, pyIsSpace c = true → p c = false) : w.filter p = [] := by
  refine List.filter_eq_nil_iff.mpr ?_
  intro a ha
  simp [hp a (hw a ha)]

theorem alnumSeq_takeWhile_ws (l : List Char) :
    alnumSeq (l.takeWhile pyIsSpace) = [] := by
  refine filter_allWs ?_ (fun c h => ws_not_alnum h)
  intro c hc
  exact List.mem_takeWhile_imp hc

theorem alnumSeq_dropWhile_ws (l : List Char) :
    alnumSeq (l.dropWhile pyIsSpace) = alnumSeq l := by
  conv_rhs => rw [← List.takeWhile_append_dropWhile pyIsSpace l]
  rw [alnumSeq, alnumSeq, List.filter_append, ← alnumSeq, ← alnumSeq,
    alnumSeq_takeWhile_ws, List.nil_append]

theorem alnumSeq_pyLstrip (l : List Char) : alnumSeq (pyLstrip l) = alnumSeq l :=
  alnumSeq_dropWhile_ws l

theorem alnumSeq_pyRstrip (l : List Char) : alnumSeq (pyRstrip l) = alnumSeq l := by
  rw [pyRstrip, alnumSeq, List.filter_reverse, ← alnumSeq, alnumSeq_dropWhile_ws,
    alnumSeq, List.filter_reverse, List.reverse_reverse, ← alnumSeq]

theorem alnumSeq_pyStrip (l : List Char) : alnumSeq (pyStrip l) = alnumSeq l := by
  rw [pyStrip, alnumSeq_pyRstrip, alnumSeq_pyLstrip]

/-! ### Behaviour of the letter/digit spacing passes (workflow.py lines 85-88) -/

theorem hasLetterDigit_cons (c : Char) (l : List Char) :
    hasLetterDigit (c :: l) =
      ((match l.head? with
        | some d => isAsciiLetter c && isAsciiDigit d
        | none => false) || hasLetterDigit l) := by
  cases l <;> simp [hasLetterDigit]

theorem sub85_head (l : List Char) : (sub85 l).head? = l.head? := by
  cases l with
  | nil => rfl
  | cons a t =>
    cases t with
    | nil => rfl
    | cons b r =>
      by_cases h : (isAsciiLetter a && isAsciiDigit b) = true
      · simp [sub85, h]
      · simp [sub85, h]

theorem sub85_no_letter_digit (l : List Char) : hasLetterDigit (sub85 l) = false := by
  induction l using sub85.induct with
  | case1 c1 c2 rest h ih =>
    have hd : isAsciiDigit c2 = true := by
      have h2 := h
      simp only [Bool.and_eq_true] at h2
      exact h2.2
    have e1 : isAsciiDigit ' ' = false := by decide
    have e2 : isAsciiLetter ' ' = false := by decide
    simp only [sub85, h, if_true]
    simp only [hasLetterDigit, e1, e2, Bool.and_false, Bool.false_and, Bool.false_or]
    rw [hasLetterDigit_cons]
    cases hh : (sub85 rest).head? <;> simp [ih, digit_not_letter hd, hh]
  | case2 c1 c2 rest h ih =>
    have hf : (isAsciiLetter c1 && isAsciiDigit c2) = false := by
      simpa using h
    simp only [sub85, hf, Bool.false_eq_true, if_false]
    rw [hasLetterDigit_cons, sub85_head]
    simp [ih, hf]
  | case3 l h =>
    match l, h with
    | [], _ => rfl
    | [a], _ => rfl
    | a :: b :: bs, h => exact absurd rfl (h a b bs)

theorem sub85_nonspace (l : List Char) :
    (sub85 l).filter (fun c => !(c == ' ')) = l.filter (fun c => !(c == ' ')) := by
  induction l using sub85.induct with
  | case1 c1 c2 rest h ih =>
    simp [sub85, h, List.filter_cons, ih]
  | case2 c1 c2 rest h ih =>
    have hf : (isAsciiLetter c1 && isAsciiDigit c2) = false := by simpa using h
    simp only [sub85, hf, Bool.false_eq_true, if_false]
    simp [List.filter_cons, ih]
  | case3 l h =>
    match l, h with
    | [], _ => rfl
    | [a], _ => rfl
    | a :: b :: bs, h => exact absurd rfl (h a b bs)

theorem sub88F_head (f : Nat) (prev : Option Char) (x : Char) (r : List Char)
    (hx : pyIsSpace x = false) : (sub88F f prev (x :: r)).head? = some x := by
  cases f with
  | zero => rfl
  | succ f => simp [sub88F, hx]

theorem sub88F_dropWhile_class (f : Nat) :
    ∀ (prev : Option Char) (l : List Char), prevIsDigit prev = false →
      headSat class88 ((sub88F f prev l).dropWhile pyIsSpace) =
      headSat class88 (l.dropWhile pyIsSpace) := by
  induction f with
  | zero => intro prev l _; rfl
  | succ f ih =>
    intro prev l h
    cases l with
    | nil => rfl
    | cons c rest =>
      simp only [sub88F, h, Bool.false_and, Bool.false_eq_true, if_false]
      by_cases hc : pyIsSpace c = true
      · rw [List.dropWhile_cons, List.dropWhile_cons]
        simp only [hc, if_true]
        exact ih (some c) rest (by simp [prevIsDigit, ws_not_digit hc])
      · rw [List.dropWhile_cons, List.dropWhile_cons]
        simp [hc, headSat]

theorem sub88F_safe (f : Nat) :
    ∀ (prev : Option Char) (l : List Char), l.length ≤ f →
      hasDigitWsClass (sub88F f prev l) = false ∧
      (prevIsDigit prev = true → wsThenClass88 (sub88F f prev l) = false) := by
  induction f with
  | zero =>
    intro prev l hl
    have : l = [] := List.eq_nil_of_length_eq_zero (Nat.le_zero.mp hl)
    subst this
    exact ⟨rfl, fun _ => rfl⟩
  | succ f ih =>
    intro prev l hl
    cases l with
    | nil => exact ⟨rfl, fun _ => rfl⟩
    | cons c rest =>
      have hrest : rest.length ≤ f := by
        simpa [Nat.succ_le_succ_iff] using hl
      by_cases hg : (prevIsDigit prev && pyIsSpace c) = true
      · have hprev : prevIsDigit prev = true := ((Bool.and_eq_true _ _).mp hg).1
        have hc : pyIsSpace c = true := ((Bool.and_eq_true _ _).mp hg).2
        by_cases hr : headSat class88 (rest.dropWhile pyIsSpace) = true
        · -- deletion branch
          have hlen : (rest.dropWhile pyIsSpace).length ≤ f :=
            le_trans (List.dropWhile_sublist pyIsSpace).length_le hrest
          have hout := ih (some (lastOfRun c (rest.takeWhile pyIsSpace)))
            (rest.dropWhile pyIsSpace) hlen
          constructor
          · simpa [sub88F, hg, hr] using hout.1
          · intro _
            -- the output starts with the non-space class character
            cases hdw : rest.dropWhile pyIsSpace with
            | nil => simp [headSat, hdw] at hr
            | cons x r2 =>
              have hx : class88 x = true := by simpa [headSat, hdw] using hr
              have hxw : pyIsSpace x = false := class88_not_ws hx
              have hh := sub88F_head f (some (lastOfRun c (rest.takeWhile pyIsSpace))) x r2 hxw
              have : sub88F (f + 1) prev (c :: rest) =
                  sub88F f (some (lastOfRun c (rest.takeWhile pyIsSpace))) (x :: r2) := by
                simp [sub88F, hg, hdw ▸ hr, hdw]
              rw [this]
              cases hcc : sub88F f (some (lastOfRun c (rest.takeWhile pyIsSpace))) (x :: r2) with
              | nil => rfl
              | cons y t =>
                have : y = x := by
                  have := hh
                  rw [hcc] at this
                  simpa using this
                subst this
                simp [wsThenClass88, headSat, hxw]
        · -- whitespace kept
          have hout := ih (some c) rest hrest
          have hform : sub88F (f + 1) prev (c :: rest) = c :: sub88F f (some c) rest := by
            simp [sub88F, hg, hr]
          constructor
          · rw [hform]
            simp only [hasDigitWsClass]
            rw [Bool.or_eq_false_iff]
            refine ⟨?_, hout.1⟩
            simp [ws_not_digit hc]
          · intro _
            rw [hform]
            have hpd : prevIsDigit (some c) = false := by
              simp [prevIsDigit, ws_not_digit hc]
            have hdd := sub88F_dropWhile_class f (some c) rest hpd
            have hr2 : headSat class88 (rest.dropWhile pyIsSpace) = false := by
              simpa using hr
            simp only [wsThenClass88, List.dropWhile_cons, hc, if_true, headSat_cons]
            rw [Bool.and_eq_false_iff]
            right
            rw [hdd]
            exact hr2
      · have hout := ih (some c) rest hrest
        have hform : sub88F (f + 1) prev (c :: rest) = c :: sub88F f (some c) rest := by
          simp [sub88F, hg]
        constructor
        · rw [hform]
          simp only [hasDigitWsClass]
          rw [Bool.or_eq_false_iff]
          constructor
          · by_cases hdc : isAsciiDigit c = true
            · simp [hdc, hout.2 (by simp [prevIsDigit, hdc])]
            · simp [Bool.eq_false_iff.mpr hdc]
          · exact hout.1
        · intro hprev
          rw [hform]
          have hcw : pyIsSpace c = false := by
            by_contra hcc
            exact hg (by simp [hprev, Bool.of_not_eq_false hcc])
          simp [wsThenClass88, headSat, hcw]

/-! ### The dashboard-side clean_line never deletes an alphanumeric character -/

theorem alnumSeq_cons (c : Char) (l : List Char) :
    alnumSeq (c :: l) = if isAsciiAlnum c then c :: alnumSeq l else alnumSeq l := by
  simp [alnumSeq, List.filter_cons]

theorem alnumSeq_sub70F (f : Nat) :
    ∀ (prev : Option Char) (l : List Char), alnumSeq (sub70F f prev l) = alnumSeq l := by
  induction f with
  | zero => intro prev l; rfl
  | succ f ih =>
    intro prev l
    cases l with
    | nil => rfl
    | cons c rest =>
      by_cases hg : (prevIsDigit prev && pyIsSpace c) = true
      · have hc : pyIsSpace c = true := ((Bool.and_eq_true _ _).mp hg).2
        by_cases hr : headSat class70 (rest.dropWhile pyIsSpace) = true
        · rw [show sub70F (f + 1) prev (c :: rest) =
              sub70F f (some (lastOfRun c (rest.takeWhile pyIsSpace))) (rest.dropWhile pyIsSpace) from by
            simp [sub70F, hg, hr]]
          rw [ih, alnumSeq_dropWhile_ws, alnumSeq_cons, ws_not_alnum hc]
          simp
        · rw [show sub70F (f + 1) prev (c :: rest) = c :: sub70F f (some c) rest from by
            simp [sub70F, hg, hr]]
          rw [alnumSeq_cons, alnumSeq_cons, ih]
      · rw [show sub70F (f + 1) prev (c :: rest) = c :: sub70F f (some c) rest from by
          simp [sub70F, hg]]
        rw [alnumSeq_cons, alnumSeq_cons, ih]

theorem alnumSeq_sub71F (f : Nat) :
    ∀ (l : List Char), alnumSeq (sub71F f l) = alnumSeq l := by
  induction f with
  | zero => intro l; rfl
  | succ f ih =>
    intro l
    cases l with
    | nil => rfl
    | cons c rest =>
      by_cases hcls : class71 c = true
      · by_cases hm : (!(rest.takeWhile pyIsSpace).isEmpty &&
            headSat isAsciiDigit (rest.dropWhile pyIsSpace)) = true
        · rw [show sub71F (f + 1) (c :: rest) = c :: sub71F f (rest.dropWhile pyIsSpace) from by
            simp [sub71F, hcls, hm]]
          rw [alnumSeq_cons, alnumSeq_cons, ih, alnumSeq_dropWhile_ws]
        · rw [show sub71F (f + 1) (c :: rest) = c :: sub71F f rest from by
            simp only [sub71F, hcls, if_true]
            simp [hm]]
          rw [alnumSeq_cons, alnumSeq_cons, ih]
      · rw [show sub71F (f + 1) (c :: rest) = c :: sub71F f rest from by
          simp [sub71F, hcls]]
        rw [alnumSeq_cons, alnumSeq_cons, ih]

theorem alnumSeq_sub72F (f : Nat) :
    ∀ (l : List Char), alnumSeq (sub72F f l) = alnumSeq l := by
  induction f with
  | zero => intro l; rfl
  | succ f ih =>
    intro l
    cases l with
    | nil => rfl
    | cons c rest =>
      by_cases hcls : isAsciiDigit c = true
      · by_cases hm : (!(rest.takeWhile pyIsSpace).isEmpty &&
            headSat isAsciiDigit (rest.dropWhile pyIsSpace)) = true
        · rw [show sub72F (f + 1) (c :: rest) = c :: sub72F f (rest.dropWhile pyIsSpace) from by
            simp [sub72F, hcls, hm]]
          rw [alnumSeq_cons, alnumSeq_cons, ih, alnumSeq_dropWhile_ws]
        · rw [show sub72F (f + 1) (c :: rest) = c :: sub72F f rest from by
            simp only [sub72F, hcls, if_true]
            simp [hm]]
          rw [alnumSeq_cons, alnumSeq_cons, ih]
      · rw [show sub72F (f + 1) (c :: rest) = c :: sub72F f rest from by
          simp [sub72F, hcls]]
        rw [alnumSeq_cons, alnumSeq_cons, ih]

theorem alnumSeq_sub73F (f : Nat) :
    ∀ (l : List Char), alnumSeq (sub73F f l) = alnumSeq l := by
  induction f with
  | zero => intro l; rfl
  | succ f ih =>
    intro l
    cases l with
    | nil => rfl
    | cons c rest =>
      by_cases hd : isAsciiDigit c = true
      · cases rest with
        | nil =>
          rw [show sub73F (f + 1) [c] = c :: sub73F f [] from by simp [sub73F, hd]]
          rw [alnumSeq_cons, alnumSeq_cons, ih]
        | cons x rest2 =>
          by_cases hx : x = '.'
          · subst hx
            cases hsplit : rest2.dropWhile pyIsSpace with
            | nil =>
              rw [show sub73F (f + 1) (c :: '.' :: rest2) = c :: sub73F f ('.' :: rest2) from by
                simp [sub73F, hd, hsplit]]
              rw [alnumSeq_cons, alnumSeq_cons, ih]
            | cons d rest3 =>
              by_cases hm : (!(rest2.takeWhile pyIsSpace).isEmpty && isAsciiDigit d) = true
              · rw [show sub73F (f + 1) (c :: '.' :: rest2) = c :: '.' :: d :: sub73F f rest3 from by
                  simp [sub73F, hd, hsplit, hm]]
                have hrest2 : alnumSeq rest2 = alnumSeq (d :: rest3) := by
                  rw [← hsplit, alnumSeq_dropWhile_ws]
                have hdot : isAsciiAlnum '.' = false := by decide
                rw [alnumSeq_cons, alnumSeq_cons, alnumSeq_cons, hdot, ih]
                rw [alnumSeq_cons, alnumSeq_cons, hdot, hrest2, alnumSeq_cons]
              · rw [show sub73F (f + 1) (c :: '.' :: rest2) = c :: sub73F f ('.' :: rest2) from by
                  simp only [sub73F, hd, if_true, hsplit]
                  simp [hm]]
                rw [alnumSeq_cons, alnumSeq_cons, ih]
          · rw [show sub73F (f + 1) (c :: x :: rest2) = c :: sub73F f (x :: rest2) from by
              simp only [sub73F, hd, if_true]
              split
              next a b heq =>
                injection heq with h1 h2
                exact absurd h1 hx
              next => rfl]
            rw [alnumSeq_cons, alnumSeq_cons, ih]
      · rw [show sub73F (f + 1) (c :: rest) = c :: sub73F f rest from by
          simp [sub73F, hd]]
        rw [alnumSeq_cons, alnumSeq_cons, ih]

theorem alnumSeq_wsBeforePunctF (f : Nat) :
    ∀ (l : List Char), alnumSeq (wsBeforePunctF f l) = alnumSeq l := by
  induction f with
  | zero => intro l; rfl
  | succ f ih =>
    intro l
    cases l with
    | nil => rfl
    | cons c rest =>
      by_cases hc : pyIsSpace c = true
      · cases hsplit : rest.dropWhile pyIsSpace with
        | nil =>
          rw [show wsBeforePunctF (f + 1) (c :: rest) = c :: wsBeforePunctF f rest from by
            simp [wsBeforePunctF, hc, hsplit]]
          rw [alnumSeq_cons, alnumSeq_cons, ih]
        | cons p rest2 =>
          by_cases hp : isPunct p = true
          · rw [show wsBeforePunctF (f + 1) (c :: rest) = p :: wsBeforePunctF f rest2 from by
              simp [wsBeforePunctF, hc, hsplit, hp]]
            have h1 : alnumSeq rest = alnumSeq (p :: rest2) := by
              rw [← hsplit, alnumSeq_dropWhile_ws]
            rw [alnumSeq_cons, alnumSeq_cons, ih, punct_not_alnum hp, ws_not_alnum hc, h1,
              alnumSeq_cons, punct_not_alnum hp]
            simp
          · rw [show wsBeforePunctF (f + 1) (c :: rest) = c :: wsBeforePunctF f rest from by
              simp only [wsBeforePunctF, hc, if_true, hsplit]
              simp [hp]]
            rw [alnumSeq_cons, alnumSeq_cons, ih]
      · rw [show wsBeforePunctF (f + 1) (c :: rest) = c :: wsBeforePunctF f rest from by
          simp [wsBeforePunctF, hc]]
        rw [alnumSeq_cons, alnumSeq_cons, ih]

theorem alnumSeq_sub75F (f : Nat) :
    ∀ (prev : Option Char) (l : List Char), alnumSeq (sub75F f prev l) = alnumSeq l := by
  induction f with
  | zero => intro prev l; rfl
  | succ f ih =>
    intro prev l
    cases l with
    | nil => rfl
    | cons c rest =>
      by_cases hg : ((match prev with | some p => isPunct p | none => false) && pyIsSpace c) = true
      · have hc : pyIsSpace c = true := ((Bool.and_eq_true _ _).mp hg).2
        have hstar : isAsciiAlnum '*' = false := by decide
        have hund : isAsciiAlnum '_' = false := by decide
        cases hsplit : rest.dropWhile pyIsSpace with
        | nil =>
          rw [show sub75F (f + 1) prev (c :: rest) = c :: sub75F f (some c) rest from by
            simp [sub75F, hg, hsplit]]
          rw [alnumSeq_cons, alnumSeq_cons, ih]
        | cons a r1 =>
          have h1 : alnumSeq rest = alnumSeq (a :: r1) := by
            rw [← hsplit, alnumSeq_dropWhile_ws]
          by_cases ha : a = '*'
          · subst ha
            cases r1 with
            | nil =>
              rw [show sub75F (f + 1) prev (c :: rest) = c :: sub75F f (some c) rest from by
                simp [sub75F, hg, hsplit]]
              rw [alnumSeq_cons, alnumSeq_cons, ih]
            | cons b r2 =>
              by_cases hb : b = '*'
              · subst hb
                rw [show sub75F (f + 1) prev (c :: rest) = '*' :: '*' :: sub75F f (some '*') r2 from by
                  simp [sub75F, hg, hsplit]]
                rw [alnumSeq_cons, alnumSeq_cons, alnumSeq_cons, ih, hstar,
                  ws_not_alnum hc, h1, alnumSeq_cons, alnumSeq_cons, hstar]
                simp
              · rw [show sub75F (f + 1) prev (c :: rest) = c :: sub75F f (some c) rest from by
                  simp only [sub75F, hg, if_true, hsplit]
                  split
                  next heq =>
                    injection heq with e1 e2
                    injection e2 with e3 e4
                    exact absurd e3 hb
                  next heq =>
                    injection heq with e1 e2
                    exact absurd e1 (by decide)
                  next => rfl]
                rw [alnumSeq_cons, alnumSeq_cons, ih]
          · by_cases ha2 : a = '_'
            · subst ha2
              cases r1 with
              | nil =>
                rw [show sub75F (f + 1) prev (c :: rest) = c :: sub75F f (some c) rest from by
                  simp [sub75F, hg, hsplit]]
                rw [alnumSeq_cons, alnumSeq_cons, ih]
              | cons b r2 =>
                by_cases hb : b = '_'
                · subst hb
                  rw [show sub75F (f + 1) prev (c :: rest) = '_' :: '_' :: sub75F f (some '_') r2 from by
                    simp [sub75F, hg, hsplit]]
                  rw [alnumSeq_cons, alnumSeq_cons, alnumSeq_cons, ih, hund,
                    ws_not_alnum hc, h1, alnumSeq_cons, alnumSeq_cons, hund]
                  simp
                · rw [show sub75F (f + 1) prev (c :: rest) = c :: sub75F f (some c) rest from by
                    simp only [sub75F, hg, if_true, hsplit]
                    split
                    next heq =>
                      injection heq with e1 e2
                      exact absurd e1 (by decide)
                    next heq =>
                      injection heq with e1 e2
                      injection e2 with e3 e4
                      exact absurd e3 hb
                    next => rfl]
                  rw [alnumSeq_cons, alnumSeq_cons, ih]
            · rw [show sub75F (f + 1) prev (c :: rest) = c :: sub75F f (some c) rest from by
                simp only [sub75F, hg, if_true, hsplit]
                split
                next heq =>
                  injection heq with e1 e2
                  exact absurd e1 ha
                next heq =>
                  injection heq with e1 e2
                  exact absurd e1 ha2
                next => rfl]
              rw [alnumSeq_cons, alnumSeq_cons, ih]
      · rw [show sub75F (f + 1) prev (c :: rest) = c :: sub75F f (some c) rest from by
          simp [sub75F, hg]]
        rw [alnumSeq_cons, alnumSeq_cons, ih]

theorem alnumSeq_sub76 (l : List Char) : alnumSeq (sub76 l) = alnumSeq l := by
  induction l with
  | nil => rfl
  | cons c rest ih =>
    by_cases hp : isPunct c = true
    · cases rest with
      | nil =>
        rw [show sub76 [c] = [c] from by simp [sub76, hp]]
      | cons d r2 =>
        by_cases hd : (pyIsSpace d || d == '*' || d == '_') = true
        · rw [show sub76 (c :: d :: r2) = c :: sub76 (d :: r2) from by
            simp only [sub76, hp, if_true]
            simp [hd]]
          rw [alnumSeq_cons, alnumSeq_cons, ih]
        · rw [show sub76 (c :: d :: r2) = c :: ' ' :: sub76 (d :: r2) from by
            simp only [sub76, hp, if_true]
            simp [hd]]
          have hsp : isAsciiAlnum ' ' = false := by decide
          rw [alnumSeq_cons, alnumSeq_cons, alnumSeq_cons, ih, hsp]
          simp
    · rw [show sub76 (c :: rest) = c :: sub76 rest from by simp [sub76, hp]]
      rw [alnumSeq_cons, alnumSeq_cons, ih]

theorem alnumSeq_collapseWsF (f : Nat) :
    ∀ (l : List Char), alnumSeq (collapseWsF f l) = alnumSeq l := by
  induction f with
  | zero => intro l; rfl
  | succ f ih =>
    intro l
    cases l with
    | nil => rfl
    | cons c rest =>
      by_cases hc : pyIsSpace c = true
      · by_cases hw : (rest.takeWhile pyIsSpace).isEmpty = true
        · rw [show collapseWsF (f + 1) (c :: rest) = c :: collapseWsF f rest from by
            simp [collapseWsF, hc, hw]]
          rw [alnumSeq_cons, alnumSeq_cons, ih]
        · rw [show collapseWsF (f + 1) (c :: rest) = ' ' :: collapseWsF f (rest.dropWhile pyIsSpace) from by
            simp [collapseWsF, hc, hw]]
          have hsp : isAsciiAlnum ' ' = false := by decide
          rw [alnumSeq_cons, alnumSeq_cons, ih, alnumSeq_dropWhile_ws, hsp,
            ws_not_alnum hc]
          simp
      · rw [show collapseWsF (f + 1) (c :: rest) = c :: collapseWsF f rest from by
          simp [collapseWsF, hc]]
        rw [alnumSeq_cons, alnumSeq_cons, ih]

theorem alnumSeq_append (a b : List Char) : alnumSeq (a ++ b) = alnumSeq a ++ alnumSeq b := by
  simp [alnumSeq, List.filter_append]

theorem alnumSeq_normalize_bullet_line (line : List Char) :
    alnumSeq (normalize_bullet_lineL line) = alnumSeq line := by
  unfold normalize_bullet_lineL
  cases hfind : bulletStrings.find? (fun b =>
      b.isPrefixOf (pyLstrip line) &&
      (match (pyLstrip line).drop b.length with
       | [] => true
       | c :: _ => pyIsSpace c)) with
  | none => simp only [hfind]
  | some b =>
    simp only [hfind]
    have hmem : b ∈ bulletStrings := List.mem_of_find?_eq_some hfind
    have hpred := List.find?_some hfind
    have hpre : b.isPrefixOf (pyLstrip line) = true := ((Bool.and_eq_true _ _).mp hpred).1
    have hbul : ∀ bb ∈ bulletStrings, ∀ x ∈ bb, isAsciiAlnum x = false := by decide
    have hb0 : alnumSeq b = [] := by
      refine List.filter_eq_nil_iff.mpr ?_
      intro x hx
      simp [hbul b hmem x hx]
    have hsplit : b ++ (pyLstrip line).drop b.length = pyLstrip line := by
      obtain ⟨t, ht⟩ := List.isPrefixOf_iff_prefix.mp hpre
      rw [← ht]
      simp
    have hrep : alnumSeq (List.replicate (line.length - (pyLstrip line).length) ' ') = [] := by
      refine List.filter_eq_nil_iff.mpr ?_
      intro x hx
      rw [List.eq_of_mem_replicate hx]
      decide
    rw [alnumSeq_append, hrep, List.nil_append, alnumSeq_cons, alnumSeq_cons,
      alnumSeq_pyLstrip]
    have hdash : isAsciiAlnum '-' = false := by decide
    have hsp : isAsciiAlnum ' ' = false := by decide
    rw [hdash, hsp]
    simp only [if_false, Bool.false_eq_true]
    conv_rhs => rw [← alnumSeq_pyLstrip line, ← hsplit]
    rw [alnumSeq_append, hb0, List.nil_append]

theorem clean_line_alnum (l : List Char) : alnumSeq (clean_lineL l) = alnumSeq l := by
  simp only [clean_lineL, sub70, sub71, sub72, sub73, wsBeforePunct, collapseWs, sub75]
  rw [alnumSeq_pyStrip, alnumSeq_collapseWsF, alnumSeq_sub76, alnumSeq_sub75F,
    alnumSeq_wsBeforePunctF, alnumSeq_sub73F, alnumSeq_sub72F, alnumSeq_sub71F,
    alnumSeq_sub70F, alnumSeq_pyStrip, alnumSeq_normalize_bullet_line]

/-! ### Blank input: both normalizers return the empty string -/

theorem allWs_of_subset {l m : List Char} (hsub : l ⊆ m)
    (h : ∀ c ∈ m, pyIsSpace c = true) : ∀ c ∈ l, pyIsSpace c = true :=
  fun c hc => h c (hsub hc)

theorem pyLstrip_allWs {l : List Char} (h : ∀ c ∈ l, pyIsSpace c = true) :
    pyLstrip l = [] := by
  refine List.dropWhile_eq_nil_iff.mpr ?_
  intro x hx
  exact h x hx

theorem pyStrip_allWs {l : List Char} (h : ∀ c ∈ l, pyIsSpace c = true) :
    pyStrip l = [] := by
  rw [pyStrip, pyLstrip_allWs h]
  rfl

theorem pyRstrip_subset (l : List Char) : pyRstrip l ⊆ l := by
  intro x hx
  rw [pyRstrip] at hx
  rw [List.mem_reverse] at hx
  have := (List.dropWhile_sublist pyIsSpace (l := l.reverse)).subset hx
  rwa [List.mem_reverse] at this

theorem splitlinesGo_allWs : ∀ (acc l : List Char),
    (∀ c ∈ l, pyIsSpace c = true) → (∀ c ∈ acc, pyIsSpace c = true) →
    ∀ ln ∈ splitlinesGo acc l, ∀ c ∈ ln, pyIsSpace c = true := by
  intro acc l
  induction acc, l using splitlinesGo.induct with
  | case1 acc =>
    intro _ hacc ln hln c hc
    rw [show splitlinesGo acc [] = [acc.reverse] from by rw [splitlinesGo]] at hln
    rw [List.mem_singleton] at hln
    subst hln
    exact hacc c (List.mem_reverse.mp hc)
  | case2 acc rest ih =>
    intro hl hacc ln hln c hc
    rw [show splitlinesGo acc ('\x0d' :: '\n' :: rest) =
        acc.reverse :: (if rest.isEmpty then [] else splitlinesGo [] rest) from by
      rw [splitlinesGo]] at hln
    have hrest : ∀ x ∈ rest, pyIsSpace x = true := by
      intro x hx
      exact hl x (by simp [hx])
    rcases List.mem_cons.mp hln with rfl | hln2
    · exact hacc c (List.mem_reverse.mp hc)
    · by_cases he : rest.isEmpty = true
      · simp [he] at hln2
      · simp only [he, if_false] at hln2
        exact ih hrest (by intro x hx; simp at hx) ln hln2 c hc
  | case3 acc rest ih =>
    intro hl hacc ln hln c hc
    rw [show splitlinesGo acc ('\n' :: rest) =
        acc.reverse :: (if rest.isEmpty then [] else splitlinesGo [] rest) from by
      rw [splitlinesGo]] at hln
    have hrest : ∀ x ∈ rest, pyIsSpace x = true := by
      intro x hx
      exact hl x (by simp [hx])
    rcases List.mem_cons.mp hln with rfl | hln2
    · exact hacc c (List.mem_reverse.mp hc)
    · by_cases he : rest.isEmpty = true
      · simp [he] at hln2
      · simp only [he, if_false] at hln2
        exact ih hrest (by intro x hx; simp at hx) ln hln2 c hc
  | case4 acc rest hne ih =>
    intro hl hacc ln hln c hc
    rw [show splitlinesGo acc ('\x0d' :: rest) =
        acc.reverse :: (if rest.isEmpty then [] else splitlinesGo [] rest) from by
      simp [splitlinesGo, hne]] at hln
    have hrest : ∀ x ∈ rest, pyIsSpace x = true := by
      intro x hx
      exact hl x (by simp [hx])
    rcases List.mem_cons.mp hln with rfl | hln2
    · exact hacc c (List.mem_reverse.mp hc)
    · by_cases he : rest.isEmpty = true
      · simp [he] at hln2
      · simp only [he, if_false] at hln2
        exact ih hrest (by intro x hx; simp at hx) ln hln2 c hc
  | case5 acc c0 rest hne1 hne2 hne3 ih =>
    intro hl hacc ln hln c hc
    rw [show splitlinesGo acc (c0 :: rest) = splitlinesGo (c0 :: acc) rest from by
      simp [splitlinesGo, hne1, hne2, hne3]] at hln
    have hrest : ∀ x ∈ rest, pyIsSpace x = true := by
      intro x hx
      exact hl x (by simp [hx])
    have hacc2 : ∀ x ∈ c0 :: acc, pyIsSpace x = true := by
      intro x hx
      rcases List.mem_cons.mp hx with rfl | hx2
      · exact hl x (by simp)
      · exact hacc x hx2
    exact ih hrest hacc2 ln hln c hc

theorem ntbLoop_allWs : ∀ (ls : List (List Char)),
    (∀ ln ∈ ls, ∀ c ∈ ln, pyIsSpace c = true) → ntbLoop [] [] ls = [] := by
  intro ls
  induction ls with
  | nil => intro _; rfl
  | cons raw rest ih =>
    intro h
    have hraw : ∀ c ∈ raw, pyIsSpace c = true := h raw (by simp)
    have hline : pyStrip (pyRstrip raw) = [] :=
      pyStrip_allWs (allWs_of_subset (pyRstrip_subset raw) hraw)
    rw [show ntbLoop [] [] (raw :: rest) = ntbLoop [] [] rest from by
      simp [ntbLoop, hline, flushParagraph]]
    exact ih (fun ln hln => h ln (by simp [hln]))

theorem normalize_text_block_allWs (text : List Char)
    (h : ∀ c ∈ text, pyIsSpace c = true) : normalize_text_blockL text = [] := by
  by_cases htext : text.isEmpty = true
  · simp [normalize_text_blockL, htext]
  · have hlines : ∀ ln ∈ pySplitlines text, ∀ c ∈ ln, pyIsSpace c = true := by
      intro ln hln
      rw [pySplitlines, if_neg htext] at hln
      exact splitlinesGo_allWs [] text h (by intro x hx; simp at hx) ln hln
    have hloop : ntbLoop [] [] (pySplitlines text) = [] := ntbLoop_allWs _ hlines
    rw [normalize_text_blockL, if_neg htext, hloop]
    rfl

theorem replaceCR_allWs : ∀ (l : List Char), (∀ c ∈ l, pyIsSpace c = true) →
    ∀ c ∈ replaceCR l, pyIsSpace c = true := by
  intro l
  induction l using replaceCR.induct with
  | case1 =>
    intro _ c hc
    simp [replaceCR] at hc
  | case2 rest ih =>
    intro h c hc
    rw [show replaceCR ('\x0d' :: '\n' :: rest) = '\n' :: replaceCR rest from by
      rw [replaceCR]] at hc
    rcases List.mem_cons.mp hc with rfl | hc2
    · decide
    · exact ih (fun x hx => h x (by simp [hx])) c hc2
  | case3 rest hne ih =>
    intro h c hc
    rw [show replaceCR ('\x0d' :: rest) = '\n' :: replaceCR rest from by
      simp [replaceCR, hne]] at hc
    rcases List.mem_cons.mp hc with rfl | hc2
    · decide
    · exact ih (fun x hx => h x (by simp [hx])) c hc2
  | case4 c0 rest hne1 hne2 ih =>
    intro h c hc
    rw [show replaceCR (c0 :: rest) = c0 :: replaceCR rest from by
      simp [replaceCR, hne1, hne2]] at hc
    rcases List.mem_cons.mp hc with rfl | hc2
    · exact h c (by simp)
    · exact ih (fun x hx => h x (by simp [hx])) c hc2

theorem ws_not_bullet {c : Char} (h : pyIsSpace c = true) : bulletClassChar c = false := by
  rcases pyIsSpace_cases h with rfl | rfl | rfl | rfl | rfl | rfl <;> decide

theorem sibF_allWs (f : Nat) : ∀ (prev : Option Char) (l : List Char),
    (∀ c ∈ l, pyIsSpace c = true) → sibF f prev l = l := by
  induction f with
  | zero => intro prev l _; rfl
  | succ f ih =>
    intro prev l h
    cases l with
    | nil => rfl
    | cons c rest =>
      have hdw : (c :: rest).dropWhile pyIsSpace = [] := by
        refine List.dropWhile_eq_nil_iff.mpr ?_
        intro x hx
        exact h x hx
      rw [show sibF (f + 1) prev (c :: rest) = c :: sibF f (some c) rest from by
        simp [sibF, hdw]]
      rw [ih (some c) rest (fun x hx => h x (by simp [hx]))]

theorem separate_inline_bullets_allWs (l : List Char)
    (h : ∀ c ∈ l, pyIsSpace c = true) : separate_inline_bulletsL l = l :=
  sibF_allWs l.length none l h

theorem splitBlocksF_allWs (f : Nat) : ∀ (acc l : List Char),
    (∀ c ∈ l, pyIsSpace c = true) → (∀ c ∈ acc, pyIsSpace c = true) →
    ∀ b ∈ splitBlocksF f acc l, ∀ c ∈ b, pyIsSpace c = true := by
  induction f with
  | zero =>
    intro acc l hl hacc b hb c hc
    rw [show splitBlocksF 0 acc l = [acc.reverse ++ l] from rfl] at hb
    rw [List.mem_singleton] at hb
    subst hb
    rcases List.mem_append.mp hc with hc1 | hc2
    · exact hacc c (List.mem_reverse.mp hc1)
    · exact hl c hc2
  | succ f ih =>
    intro acc l hl hacc b hb c hc
    cases l with
    | nil =>
      rw [show splitBlocksF (f + 1) acc [] = [acc.reverse] from rfl] at hb
      rw [List.mem_singleton] at hb
      subst hb
      exact hacc c (List.mem_reverse.mp hc)
    | cons c0 rest =>
      have hrest : ∀ x ∈ rest, pyIsSpace x = true := fun x hx => hl x (by simp [hx])
      by_cases hc0 : c0 = '\n'
      · subst hc0
        by_cases hw : (rest.takeWhile (fun c => c == '\n')).isEmpty = true
        · rw [show splitBlocksF (f + 1) acc ('\n' :: rest) =
              splitBlocksF f ('\n' :: acc) rest from by
            simp [splitBlocksF, hw]] at hb
          refine ih ('\n' :: acc) rest hrest ?_ b hb c hc
          intro x hx
          rcases List.mem_cons.mp hx with rfl | hx2
          · decide
          · exact hacc x hx2
        · rw [show splitBlocksF (f + 1) acc ('\n' :: rest) =
              acc.reverse :: splitBlocksF f [] (rest.dropWhile (fun c => c == '\n')) from by
            simp [splitBlocksF, hw]] at hb
          rcases List.mem_cons.mp hb with rfl | hb2
          · exact hacc c (List.mem_reverse.mp hc)
          · have hsub : ∀ x ∈ rest.dropWhile (fun c => c == '\n'), pyIsSpace x = true :=
              allWs_of_subset (List.dropWhile_sublist _).subset hrest
            exact ih [] (rest.dropWhile (fun c => c == '\n')) hsub
              (by intro x hx; simp at hx) b hb2 c hc
      · rw [show splitBlocksF (f + 1) acc (c0 :: rest) =
            splitBlocksF f (c0 :: acc) rest from by
          simp [splitBlocksF, hc0]] at hb
        refine ih (c0 :: acc) rest hrest ?_ b hb c hc
        intro x hx
        rcases List.mem_cons.mp hx with rfl | hx2
        · exact hl x (by simp)
        · exact hacc x hx2

theorem splitNl_allWs : ∀ (acc l : List Char),
    (∀ c ∈ l, pyIsSpace c = true) → (∀ c ∈ acc, pyIsSpace c = true) →
    ∀ ln ∈ splitNl acc l, ∀ c ∈ ln, pyIsSpace c = true := by
  intro acc l
  induction acc, l using splitNl.induct with
  | case1 acc =>
    intro _ hacc ln hln c hc
    rw [show splitNl acc [] = [acc.reverse] from by rw [splitNl]] at hln
    rw [List.mem_singleton] at hln
    subst hln
    exact hacc c (List.mem_reverse.mp hc)
  | case2 acc rest ih =>
    intro hl hacc ln hln c hc
    rw [show splitNl acc ('\n' :: rest) = acc.reverse :: splitNl [] rest from by
      rw [splitNl]] at hln
    rcases List.mem_cons.mp hln with rfl | hln2
    · exact hacc c (List.mem_reverse.mp hc)
    · exact ih (fun x hx => hl x (by simp [hx])) (by intro x hx; simp at hx) ln hln2 c hc
  | case3 acc c0 rest hne ih =>
    intro hl hacc ln hln c hc
    rw [show splitNl acc (c0 :: rest) = splitNl (c0 :: acc) rest from by
      simp [splitNl, hne]] at hln
    refine ih (fun x hx => hl x (by simp [hx])) ?_ ln hln c hc
    intro x hx
    rcases List.mem_cons.mp hx with rfl | hx2
    · exact hl x (by simp)
    · exact hacc x hx2

theorem renderBlock_allWs (b : List Char) (h : ∀ c ∈ b, pyIsSpace c = true) :
    renderBlock b = none := by
  have hfilter : (splitNl [] b).filter (fun ln => !(pyStrip ln).isEmpty) = [] := by
    refine List.filter_eq_nil_iff.mpr ?_
    intro ln hln
    have : pyStrip ln = [] :=
      pyStrip_allWs (splitNl_allWs [] b h (by intro x hx; simp at hx) ln hln)
    simp [this]
  rw [renderBlock, hfilter]
  rfl

theorem format_text_block_allWs (text : List Char)
    (h : ∀ c ∈ text, pyIsSpace c = true) : format_text_blockL text = [] := by
  by_cases htext : text.isEmpty = true
  · simp [format_text_blockL, htext]
  · have h2 : ∀ c ∈ replaceCR text, pyIsSpace c = true := replaceCR_allWs text h
    have hsib : separate_inline_bulletsL (replaceCR text) = replaceCR text :=
      separate_inline_bullets_allWs _ h2
    have hblocks : (splitBlocks (replaceCR text)).filterMap renderBlock = [] := by
      refine List.filterMap_eq_nil_iff.mpr ?_
      intro b hb
      exact renderBlock_allWs b
        (splitBlocksF_allWs (replaceCR text).length [] (replaceCR text) h2
          (by intro x hx; simp at hx) b hb)
    rw [format_text_blockL, if_neg htext]
    show pyStrip (escapeDollars none (collapseWs (joinSep ['\n', '\n']
      ((splitBlocks (separate_inline_bulletsL (replaceCR (fixTextL text)))).filterMap
        renderBlock)))) = []
    rw [fixTextL, hsib, hblocks]
    rfl

/-! ### Claim theorems -/

/-- C1: evaluation at the failing input. Three blocks separated by blank
lines are claimed to be rendered as the same three blocks joined by exactly
one blank line; in both implementations the final whitespace-collapse pass
(\s{2,} to one space) also matches the blank-line separators, so the three
blocks come out joined by single spaces with no blank line at all. -/
theorem c1_blank_line_separators_collapse :
    normalize_text_block ("one\n\ntwo\n\nthree") = ("one two three") ∧
    format_text_block ("one\n\ntwo\n\nthree") = ("one two three") := by
  constructor
  · decide
  · decide

/-- C2 counterexample: a block that contains the list line "- item" and two
prose lines is rendered by the workflow-side normalizer as two lines, not
one output line per original line: the adjacent prose lines are merged. -/
theorem c2_counterexample_workflow_merges_prose :
    normalize_text_block ("- item\nfirst\nsecond") = ("- item\nfirst second") := by
  decide

/-- C2 amended: the dashboard-side normalizer renders a block as one line
per original nonblank line whenever any of its lines is a list line, and the
workflow-side normalizer keeps each recognised bullet line on a line of its
own (but merges adjacent prose lines of a mixed block, and only recognises
the markers dash, star, plus and 1. to 5.). -/
theorem c2_list_blocks_line_per_line :
    format_text_block ("- item\nfirst\nsecond") = ("- item\nfirst\nsecond") ∧
    is_list_itemL ("- item").data = true ∧
    normalize_text_block ("first\n- item\nsecond") = ("first\n- item\nsecond") := by
  refine ⟨by decide, by decide, by decide⟩

/-- C3 counterexample: the workflow-side duplicate-token regex deletes
letters from an input whose maximal alphanumeric tokens are all distinct:
in "aa aah" the token "aa" matches a prefix of the longer token "aah", the
match "aa aah" is replaced by "aah", and two letters are lost. -/
theorem c3_counterexample_workflow_deletes_letters :
    normalize_text_block ("aa aah") = ("aah") := by
  decide

/-- C3 amended: the dashboard-side line cleaner never deletes a digit or a
letter: for every input line the sequence of ASCII alphanumeric characters
of the output equals that of the input.  (The workflow-side normalizer does
not have this property, by the counterexample.) -/
theorem c3_clean_line_preserves_alnum (l : List Char) :
    alnumSeq (clean_lineL l) = alnumSeq l :=
  clean_line_alnum l

/-- C4 counterexample: the workflow-side normalizer is not idempotent.  On
"x x xy" the duplicate-token pass rewrites the tail "x xy" to "xy" giving
"x xy", and a second pass collapses the newly adjacent "x xy" to "xy". -/
theorem c4_counterexample_not_idempotent :
    ¬ (normalize_text_block (normalize_text_block ("x x xy")) =
       normalize_text_block ("x x xy")) := by
  decide

/-- C4 amended: a second pass does not alter the output on representative
already-clean inputs of both normalizers, though idempotence fails in
general (see the counterexample). -/
theorem c4_idempotent_on_representatives :
    normalize_text_block (normalize_text_block ("Q3 earnings")) =
      normalize_text_block ("Q3 earnings") ∧
    format_text_block (format_text_block ("- item\nfirst\nsecond")) =
      format_text_block ("- item\nfirst\nsecond") ∧
    format_text_block (format_text_block ("$416B in revenue")) =
      format_text_block ("$416B in revenue") := by
  refine ⟨by decide, by decide, by decide⟩

/-- C5: on the empty string and on every all-whitespace input both
normalizers return the empty string (and, being total functions, raise no
error). -/
theorem c5_blank_input (s : List Char) (h : ∀ c ∈ s, pyIsSpace c = true) :
    normalize_text_block (String.mk s) = ("") ∧
    format_text_block (String.mk s) = ("") := by
  constructor
  · show String.mk (normalize_text_blockL s) = ("")
    rw [normalize_text_block_allWs s h]
  · show String.mk (format_text_blockL s) = ("")
    rw [format_text_block_allWs s h]

/-- C5 witness: the hypothesis holds at the concrete blank input of the
spec and the theorem applies to it. -/
theorem c5_blank_input_witness :
    (∀ c ∈ ("   \n\n  ").data, pyIsSpace c = true) ∧
    normalize_text_block ("   \n\n  ") = ("") ∧
    format_text_block ("   \n\n  ") = ("") := by
  have h : ∀ c ∈ ("   \n\n  ").data, pyIsSpace c = true := by decide
  have h2 := c5_blank_input (("   \n\n  ").data) h
  exact ⟨h, h2.1, h2.2⟩

/-- C6 counterexample: neither implementation repairs "price is
3 . 5 percent" to "price is 3.5 percent".  The decimal-reuniting rule runs
before the space-before-punctuation rule, so the space-separated period is
never reattached to both digits; in addition the digit-space-letter rule
glues "5 percent" into "5percent". -/
theorem c6_counterexample_decimal_not_repaired :
    clean_line ("price is 3 . 5 percent") = ("price is 3. 5percent") ∧
    normalize_text_block ("price is 3 . 5 percent") = ("price is 3. 5percent") ∧
    format_text_block ("price is 3 . 5 percent") = ("price is 3. 5percent") := by
  refine ⟨by decide, by decide, by decide⟩

/-- C6 amended: the dashboard-side line cleaner does repair "$ 4 1 6 B" to
"$416B" (the workflow-side normalizer lacks the digit-digit collapse and
yields "$4 1 6B"; the full dashboard formatter additionally escapes the
dollar sign); the second spec example comes out as "price is 3. 5percent"
under both implementations. -/
theorem c6_currency_number_repair :
    clean_line ("$ 4 1 6 B") = ("$416B") ∧
    normalize_text_block ("$ 4 1 6 B") = ("$4 1 6B") ∧
    format_text_block ("$ 4 1 6 B") = ("\\$416B") ∧
    clean_line ("price is 3 . 5 percent") = ("price is 3. 5percent") := by
  refine ⟨by decide, by decide, by decide, by decide⟩

/-- C7 counterexample: the duplicated token of the spec example is not
collapsed.  The workflow regex demands at least one further word, currency
or percent character after the repeated token, and " in revenue" starts
with a space; the dashboard-side cleaner has no duplicate rule at all. -/
theorem c7_counterexample_duplicate_kept :
    normalize_text_block ("$416B $416B in revenue") = ("$416B $416B in revenue") ∧
    clean_line ("$416B $416B in revenue") = ("$416B $416B in revenue") := by
  refine ⟨by decide, by decide⟩

/-- C7 amended: the workflow-side duplicate collapse fires only when the
repeated token is immediately followed by one more character of the
word/currency/percent class, as the trailing comma provides here. -/
theorem c7_duplicate_collapse_needs_continuation :
    normalize_text_block ("$416B $416B, in revenue") = ("$416B, in revenue") := by
  decide

/-- C8 counterexample: the spec example does not normalize to
"NVDA reported strong growth".  The workflow-side normalizer despaces
"N V D A" but its duplicate-token pass also merges "strong growth" into
"strongrowth" (the final "g" of "strong" matches a prefix of "growth");
the dashboard-side cleaner has no letter-despacing rule and leaves the
input unchanged. -/
theorem c8_counterexample_despacing :
    normalize_text_block ("N V D A reported strong growth") =
      ("NVDA reported strongrowth") ∧
    clean_line ("N V D A reported strong growth") =
      ("N V D A reported strong growth") := by
  refine ⟨by decide, by decide⟩

/-- C8 amended: the workflow-side normalizer squashes a run of three or
more single same-case letters separated by single spaces; a two-letter run
is left unchanged (the regex requires at least two letter-space repetitions
before the final letter), and the dashboard-side cleaner never despaces. -/
theorem c8_letter_despacing :
    normalize_text_block ("N V D A held steady") = ("NVDA held steady") ∧
    normalize_text_block ("The A B test") = ("The A B test") ∧
    clean_line ("N V D A held steady") = ("N V D A held steady") := by
  refine ⟨by decide, by decide, by decide⟩

/-- C9 counterexample: the dashboard-side digit rule (\d)\s+(?=\d) merges
any two digit runs separated by whitespace, so the two independent years
"2023 2024" become one number. -/
theorem c9_counterexample_years_merged :
    clean_line ("2023 2024") = ("20232024") ∧
    format_text_block ("2023 2024") = ("20232024") := by
  refine ⟨by decide, by decide⟩

/-- C9 amended: only the workflow-side normalizer leaves whitespace-separated
multi-digit numbers alone (it has no digit-digit whitespace collapse at
all); the dashboard-side cleaner merges them, by the counterexample. -/
theorem c9_workflow_keeps_number_ranges :
    normalize_text_block ("2023 2024") = ("2023 2024") := by
  decide

/-- C10: the workflow-side normalizer first inserts a space between every
letter immediately followed by a digit (after the pass no such adjacency
remains and no character other than inserted spaces changes), and a later
pass deletes whitespace between a digit and a following letter, dollar or
percent (after it no digit-whitespace-letter pattern remains); composed on
"Q3 earnings" this yields "Q 3earnings". -/
theorem c10_letter_digit_spacing :
    normalize_text_block ("Q3 earnings") = ("Q 3earnings") ∧
    (∀ l : List Char, hasLetterDigit (sub85 l) = false) ∧
    (∀ l : List Char,
      (sub85 l).filter (fun c => !(c == ' ')) = l.filter (fun c => !(c == ' '))) ∧
    (∀ l : List Char, hasDigitWsClass (sub88 l) = false) := by
  refine ⟨by decide, sub85_no_letter_digit, sub85_nonspace, ?_⟩
  intro l
  exact (sub88F_safe l.length none l le_rfl).1
